import Mathlib

/-!
# Verification of the crawl-and-capture pipeline

A shallow embedding of the screenshot capture pipeline: URL normalizer,
link crawler, provider-fallback capturer, filename synthesizer and the
capture orchestrator.  Browser platform facilities (the WHATWG URL
parser, `fetch`, `FileReader`, canvas rendering, `Date`) are modelled
explicitly: the URL parser as a simplified executable parser over the
http(s) subset the pipeline uses, and the effectful facilities as
oracle parameters threaded through the definitions.
-/

namespace Capturrxs

/-! ## Character and string helpers (models of the JS string primitives) -/

/-- Model of a JavaScript whitespace character (the ASCII subset). -/
def isJsWS (c : Char) : Bool :=
  c = ' ' || c = '\t' || c = '\n' || c = '\r' || c = '\x0b' || c = '\x0c'

/-- Model of `String.prototype.trim`: drop leading and trailing whitespace. -/
def jsTrimList (l : List Char) : List Char :=
  ((l.dropWhile isJsWS).reverse.dropWhile isJsWS).reverse

/-- Model of `String.prototype.trim` on `String`. -/
def jsTrim (s : String) : String :=
  ⟨jsTrimList s.data⟩

/-- Model of `String.prototype.toLowerCase` for one character (the
basic-latin fragment, as an explicit table so that facts about it are
provable by case analysis). -/
def lcChar : Char → Char
  | 'A' => 'a' | 'B' => 'b' | 'C' => 'c' | 'D' => 'd' | 'E' => 'e'
  | 'F' => 'f' | 'G' => 'g' | 'H' => 'h' | 'I' => 'i' | 'J' => 'j'
  | 'K' => 'k' | 'L' => 'l' | 'M' => 'm' | 'N' => 'n' | 'O' => 'o'
  | 'P' => 'p' | 'Q' => 'q' | 'R' => 'r' | 'S' => 's' | 'T' => 't'
  | 'U' => 'u' | 'V' => 'v' | 'W' => 'w' | 'X' => 'x' | 'Y' => 'y'
  | 'Z' => 'z'
  | c => c

/-- Lowercase a character list. -/
def lcList (l : List Char) : List Char := l.map lcChar

/-- Lowercase a string. -/
def lcStr (s : String) : String := ⟨lcList s.data⟩

/-- `leadsWith pat l` holds when `pat` occurs at the very front of `l`. -/
def leadsWith : List Char → List Char → Bool
  | [], _ => true
  | _ :: _, [] => false
  | p :: ps, c :: cs => p = c && leadsWith ps cs

/-- `strLeads pat s`: the string `s` starts with the literal `pat`. -/
def strLeads (pat s : String) : Bool := leadsWith pat.data s.data

theorem leadsWith_append (p l : List Char) : leadsWith p (p ++ l) = true := by
  induction p with
  | nil => rfl
  | cons c cs ih => simp [leadsWith, ih]

theorem leadsWith_iff_append (p l : List Char) :
    leadsWith p l = true ↔ ∃ t, l = p ++ t := by
  induction p generalizing l with
  | nil => simp [leadsWith]
  | cons c cs ih =>
    cases l with
    | nil => simp [leadsWith]
    | cons d ds =>
      simp only [leadsWith, Bool.and_eq_true, decide_eq_true_eq, ih,
        List.cons_append, List.cons.injEq]
      constructor
      · rintro ⟨rfl, t, rfl⟩; exact ⟨t, rfl, rfl⟩
      · rintro ⟨t, rfl, rfl⟩; exact ⟨rfl, t, rfl⟩

/-- Model of a global literal-pattern `String.prototype.replace`
(`/pat/g`): scan left to right, replacing non-overlapping occurrences of
the (non-empty) pattern `p :: ps` with `rep`.  The `fuel` argument only
bounds the recursion; `fuel = l.length` always suffices, because each
step consumes at least one character. -/
def replaceAllAux (p : Char) (ps rep : List Char) : Nat → List Char → List Char
  | _, [] => []
  | 0, l => l
  | fuel + 1, c :: cs =>
    if leadsWith (p :: ps) (c :: cs) then
      rep ++ replaceAllAux p ps rep fuel (cs.drop ps.length)
    else
      c :: replaceAllAux p ps rep fuel cs

/-- Model of `s.replace(/pat/g, rep)` with a literal pattern. -/
def jsReplaceAll (s pat rep : String) : String :=
  match pat.data with
  | [] => s
  | p :: ps => ⟨replaceAllAux p ps rep.data s.data.length s.data⟩

/-- Model of a first-occurrence-only literal `String.prototype.replace`
(string pattern, as in `hostname.replace('www.', '')`). -/
def replaceFirstAux (p : Char) (ps rep : List Char) : List Char → List Char
  | [] => []
  | c :: cs =>
    if leadsWith (p :: ps) (c :: cs) then
      rep ++ cs.drop ps.length
    else
      c :: replaceFirstAux p ps rep cs

/-- Model of `s.replace(pat, rep)` with a string pattern: replaces only
the first occurrence. -/
def jsReplaceFirst (s pat rep : String) : String :=
  match pat.data with
  | [] => ⟨rep.data ++ s.data⟩
  | p :: ps => ⟨replaceFirstAux p ps rep.data s.data⟩

/-- `occursIn pat l`: the pattern occurs somewhere in `l`
(model of `indexOf(pat) !== -1`). -/
def occursIn (pat : List Char) : List Char → Bool
  | [] => leadsWith pat []
  | c :: cs => leadsWith pat (c :: cs) || occursIn pat cs

/-- Substring occurrence on strings. -/
def strOccurs (pat s : String) : Bool := occursIn pat.data s.data

/-- `trailsWith pat l`: the pattern occurs at the very end of `l`. -/
def trailsWith (pat l : List Char) : Bool := leadsWith pat.reverse l.reverse

/-- `strEnds pat s`: the string `s` ends with the literal `pat`. -/
def strEnds (pat s : String) : Bool := trailsWith pat.data s.data

example : jsReplaceAll "a{x}b{x}" "{x}" "Z" = "aZbZ" := by decide
example : jsReplaceFirst "x.www.com" "www." "" = "x.com" := by decide
example : jsReplaceFirst "awww.example.com" "www." "" = "aexample.com" := by decide
example : strOccurs "image" "image/png" = true := by decide
example : strEnds ".jpg" "a.jpg" = true := by decide

/-! ## URL model

A simplified executable model of the browser WHATWG URL parser,
restricted to the `http(s)` URLs this pipeline manipulates.  A parsed
URL keeps its (lowercased) scheme and hostname and the remainder
(path, query and fragment) verbatim; inputs whose host is empty or
contains a character outside the usual hostname alphabet, and inputs
containing whitespace, fail to parse (where the real parser would
throw or percent-encode). -/

/-- Characters admitted in a hostname by the model parser. -/
def validHostChar (c : Char) : Bool :=
  c.isAlphanum || c = '.' || c = '-' || c = '_'

/-- A parsed absolute http(s) URL: scheme, lowercased host, and the
remainder (path plus query plus fragment), which always starts with
`'/'`. -/
structure URLRec where
  scheme : String
  host : String
  rest : String
deriving DecidableEq, Repr

/-- Split off a case-insensitive `http://` or `https://` scheme, as the
test `/^https?:\/\//i` and the URL parser do. -/
def schemeSplit (s : String) : Option (String × List Char) :=
  if lcList (s.data.take 8) = "https://".data then some ("https", s.data.drop 8)
  else if lcList (s.data.take 7) = "http://".data then some ("http", s.data.drop 7)
  else none

/-- The scheme test `/^https?:\/\//i.test(s)`. -/
def hasHttpScheme (s : String) : Bool := (schemeSplit s).isSome

/-- The span of hostname characters: everything up to the first `/`,
`?` or `#`. -/
def hostCharsOf (rest : List Char) : List Char :=
  rest.takeWhile fun c => !(c = '/' || c = '?' || c = '#')

/-- Normalize the part after the hostname so that it starts with `/`
(the serialization of a root path is `/`, and a bare query or fragment
hangs off the root path). -/
def tailOf (after : List Char) : List Char :=
  if after.isEmpty then ['/']
  else if leadsWith ['/'] after then after
  else '/' :: after

/-- Model of `new URL(s)` for absolute `http(s)` inputs. -/
def parseURL (s : String) : Option URLRec :=
  match schemeSplit s with
  | none => none
  | some (sch, rest) =>
    if (hostCharsOf rest).isEmpty then none
    else if !(hostCharsOf rest).all validHostChar then none
    else if !(rest.drop (hostCharsOf rest).length).all (fun c => !isJsWS c) then none
    else some ⟨sch, ⟨lcList (hostCharsOf rest)⟩,
               ⟨tailOf (rest.drop (hostCharsOf rest).length)⟩⟩

/-- Model of the `href` serialization of a parsed URL. -/
def hrefOf (u : URLRec) : String :=
  u.scheme ++ "://" ++ u.host ++ u.rest

/-- Model of the `hostname` accessor on a raw URL string: the hostname
of its parse, when it parses. -/
def urlHostname (s : String) : Option String :=
  (parseURL s).map URLRec.host

/-- Model of the `pathname` accessor: the part of `rest` before any
query or fragment. -/
def pathnameOf (u : URLRec) : String :=
  ⟨u.rest.data.takeWhile fun c => !(c = '?' || c = '#')⟩

/-- Well-formedness of a parsed URL record: exactly the shape that
`parseURL` produces (and that `hrefOf` reparses to itself). -/
def WFURL (u : URLRec) : Prop :=
  (u.scheme = "http" ∨ u.scheme = "https") ∧
  u.host.data ≠ [] ∧
  u.host.data.all validHostChar = true ∧
  lcList u.host.data = u.host.data ∧
  leadsWith ['/'] u.rest.data = true ∧
  u.rest.data.all (fun c => !isJsWS c) = true

instance (u : URLRec) : Decidable (WFURL u) := by
  unfold WFURL; infer_instance

example : parseURL "HTTPS://Example.com" = some ⟨"https", "example.com", "/"⟩ := by decide
example : parseURL "https://a.com?q=1" = some ⟨"https", "a.com", "/?q=1"⟩ := by decide
example : parseURL "http://" = none := by decide
example : parseURL "https://a b.com/" = none := by decide
example : hrefOf ⟨"https", "example.com", "/"⟩ = "https://example.com/" := by decide

/-! ### Facts about the URL model -/

theorem strData_append (s t : String) : (s ++ t).data = s.data ++ t.data := by
  cases s; cases t; rfl

theorem strExt {s t : String} (h : s.data = t.data) : s = t := by
  cases s; cases t; exact congrArg String.mk h

theorem strMk_data (s : String) : String.mk s.data = s := by
  cases s; rfl

theorem lcChar_of_not_mem (c : Char)
    (h : c ∉ ['A','B','C','D','E','F','G','H','I','J','K','L','M',
              'N','O','P','Q','R','S','T','U','V','W','X','Y','Z']) :
    lcChar c = c := by
  unfold lcChar
  split <;> simp_all

theorem lcChar_idem (c : Char) : lcChar (lcChar c) = lcChar c := by
  by_cases h : c ∈ ['A','B','C','D','E','F','G','H','I','J','K','L','M',
              'N','O','P','Q','R','S','T','U','V','W','X','Y','Z']
  · fin_cases h <;> decide
  · simp [lcChar_of_not_mem c h]

theorem lcList_idem (l : List Char) : lcList (lcList l) = lcList l := by
  simp [lcList, List.map_map, Function.comp_def, lcChar_idem]

theorem validHostChar_lcChar (c : Char) (h : validHostChar c = true) :
    validHostChar (lcChar c) = true := by
  unfold lcChar
  split <;> first | decide | exact h

theorem validHostChar_not_ws (c : Char) (h : validHostChar c = true) :
    isJsWS c = false := by
  by_cases h1 : c = ' '
  · subst h1; exact absurd h (by decide)
  by_cases h2 : c = '\t'
  · subst h2; exact absurd h (by decide)
  by_cases h3 : c = '\n'
  · subst h3; exact absurd h (by decide)
  by_cases h4 : c = '\r'
  · subst h4; exact absurd h (by decide)
  by_cases h5 : c = '\x0b'
  · subst h5; exact absurd h (by decide)
  by_cases h6 : c = '\x0c'
  · subst h6; exact absurd h (by decide)
  simp [isJsWS, h1, h2, h3, h4, h5, h6]

theorem validHostChar_not_sep (c : Char) (h : validHostChar c = true) :
    (!(c = '/' || c = '?' || c = '#')) = true := by
  by_cases h1 : c = '/'
  · subst h1; exact absurd h (by decide)
  · by_cases h2 : c = '?'
    · subst h2; exact absurd h (by decide)
    · by_cases h3 : c = '#'
      · subst h3; exact absurd h (by decide)
      · simp [h1, h2, h3]

theorem takeWhile_app (p : Char → Bool) (l1 l2 : List Char)
    (h1 : ∀ a ∈ l1, p a = true) (h2 : ∀ a, l2.head? = some a → p a = false) :
    (l1 ++ l2).takeWhile p = l1 := by
  induction l1 with
  | nil =>
    cases l2 with
    | nil => rfl
    | cons d ds => simp [List.takeWhile_cons, h2 d rfl]
  | cons c cs ih =>
    have hc : p c = true := h1 c (by simp)
    simp only [List.cons_append, List.takeWhile_cons, hc, if_true]
    rw [ih (fun a ha => h1 a (by simp [ha]))]

theorem schemeSplit_http (h0 : Char) (l : List Char) :
    schemeSplit ⟨'h' :: 't' :: 't' :: 'p' :: ':' :: '/' :: '/' :: h0 :: l⟩ =
      some ("http", h0 :: l) := by
  simp [schemeSplit, lcList, List.take, List.drop, lcChar]

theorem schemeSplit_https (l : List Char) :
    schemeSplit ⟨'h' :: 't' :: 't' :: 'p' :: 's' :: ':' :: '/' :: '/' :: l⟩ =
      some ("https", l) := by
  simp [schemeSplit, lcList, List.take, List.drop, lcChar]

theorem schemeSplit_scheme (s sch : String) (rest : List Char)
    (h : schemeSplit s = some (sch, rest)) : sch = "http" ∨ sch = "https" := by
  unfold schemeSplit at h
  split_ifs at h
  · simp only [Option.some.injEq, Prod.mk.injEq] at h
    exact Or.inr h.1.symm
  · simp only [Option.some.injEq, Prod.mk.injEq] at h
    exact Or.inl h.1.symm

theorem tailOf_leads (after : List Char) : leadsWith ['/'] (tailOf after) = true := by
  unfold tailOf
  split_ifs with h1 h2
  · decide
  · exact h2
  · simp [leadsWith]

theorem tailOf_ws (after : List Char) (h : after.all (fun c => !isJsWS c) = true) :
    (tailOf after).all (fun c => !isJsWS c) = true := by
  unfold tailOf
  split_ifs with h1 h2
  · decide
  · exact h
  · simpa [isJsWS] using h

/-- Every record produced by `parseURL` is well-formed. -/
theorem parseURL_wf (s : String) (u : URLRec) (h : parseURL s = some u) :
    WFURL u := by
  unfold parseURL at h
  split at h
  · exact absurd h (by simp)
  · rename_i sch rest heq
    split_ifs at h with h1 h2 h3
    rw [Option.some.injEq] at h
    subst h
    have hall : (hostCharsOf rest).all validHostChar = true := by
      cases hv : (hostCharsOf rest).all validHostChar
      · rw [hv] at h2; exact absurd rfl h2
      · rfl
    refine ⟨schemeSplit_scheme s sch rest heq, ?_, ?_, ?_, ?_, ?_⟩
    · simp only [lcList]
      intro hnil
      rw [List.map_eq_nil_iff] at hnil
      rw [hnil] at h1
      exact h1 rfl
    · simp only [lcList, List.all_map]
      rw [List.all_eq_true] at hall ⊢
      intro a ha
      exact validHostChar_lcChar a (hall a ha)
    · exact lcList_idem _
    · exact tailOf_leads _
    · refine tailOf_ws _ ?_
      cases hv : (rest.drop (hostCharsOf rest).length).all (fun c => !isJsWS c)
      · rw [hv] at h3; exact absurd rfl h3
      · rfl

/-- The serialization of a well-formed record splits back into its
scheme and the rest. -/
theorem schemeSplit_hrefOf (u : URLRec) (h : WFURL u) :
    schemeSplit (hrefOf u) = some (u.scheme, u.host.data ++ u.rest.data) := by
  obtain ⟨hsch, hne, -, -, -, -⟩ := h
  obtain ⟨h0, hs, hh⟩ : ∃ c cs, u.host.data = c :: cs := by
    cases hh : u.host.data with
    | nil => exact absurd hh hne
    | cons c cs => exact ⟨c, cs, rfl⟩
  have hdata : (hrefOf u).data =
      u.scheme.data ++ ("://".data ++ (u.host.data ++ u.rest.data)) := by
    simp [hrefOf, strData_append]
  rcases hsch with hsc | hsc
  · have hform : hrefOf u = ⟨'h' :: 't' :: 't' :: 'p' :: ':' :: '/' :: '/' ::
        (h0 :: (hs ++ u.rest.data))⟩ := by
      refine strExt ?_
      rw [hdata, hsc, hh]
      rfl
    rw [hform, schemeSplit_http, hsc, hh]
    rfl
  · have hform : hrefOf u = ⟨'h' :: 't' :: 't' :: 'p' :: 's' :: ':' :: '/' :: '/' ::
        ((h0 :: hs) ++ u.rest.data)⟩ := by
      refine strExt ?_
      rw [hdata, hsc, hh]
      rfl
    rw [hform, schemeSplit_https, hsc, hh]

/-- Reparsing the serialization of a well-formed URL record gives back
the same record (the parser is a retraction of `hrefOf`). -/
theorem parseURL_hrefOf (u : URLRec) (h : WFURL u) : parseURL (hrefOf u) = some u := by
  have hsplit := schemeSplit_hrefOf u h
  obtain ⟨hsch, hne, hall, hlc, hlead, hws⟩ := h
  obtain ⟨h0, hs, hh⟩ : ∃ c cs, u.host.data = c :: cs := by
    cases hh : u.host.data with
    | nil => exact absurd hh hne
    | cons c cs => exact ⟨c, cs, rfl⟩
  have hrest0 : ∃ t, u.rest.data = '/' :: t := by
    have := (leadsWith_iff_append ['/'] u.rest.data).mp hlead
    simpa using this
  obtain ⟨t, ht⟩ := hrest0
  have htake : hostCharsOf (u.host.data ++ u.rest.data) = u.host.data := by
    unfold hostCharsOf
    refine takeWhile_app _ _ _ ?_ ?_
    · intro a ha
      have := (List.all_eq_true.mp hall) a ha
      exact validHostChar_not_sep a this
    · intro a ha
      rw [ht] at ha
      simp only [List.head?] at ha
      injection ha with ha2
      rw [← ha2]
      decide
  have hdrop : (u.host.data ++ u.rest.data).drop (hostCharsOf (u.host.data ++ u.rest.data)).length =
      u.rest.data := by
    rw [htake]
    exact List.drop_left _ _
  unfold parseURL
  rw [hsplit]
  simp only [htake, List.drop_left]
  have hnotempty : u.host.data.isEmpty = false := by
    rw [hh]; rfl
  rw [hnotempty, hall, hws]
  simp only [Bool.not_true, Bool.false_eq_true, if_false, Bool.not_false, if_true]
  have htail : tailOf u.rest.data = u.rest.data := by
    unfold tailOf
    rw [ht]
    simp [leadsWith, List.isEmpty]
  rw [htail, hlc, strMk_data, strMk_data]

theorem dropWhile_of_none (p : Char → Bool) (l : List Char)
    (h : ∀ c ∈ l, p c = false) : l.dropWhile p = l := by
  cases l with
  | nil => rfl
  | cons c cs => simp [List.dropWhile_cons, h c (by simp)]

theorem jsTrimList_of_no_ws (l : List Char)
    (h : l.all (fun c => !isJsWS c) = true) : jsTrimList l = l := by
  have h' : ∀ c ∈ l, isJsWS c = false := by
    intro c hc
    have := List.all_eq_true.mp h c hc
    simpa using this
  unfold jsTrimList
  rw [dropWhile_of_none _ _ h', dropWhile_of_none, List.reverse_reverse]
  intro c hc
  exact h' c (by simpa using hc)

theorem hrefOf_no_ws (u : URLRec) (h : WFURL u) :
    (hrefOf u).data.all (fun c => !isJsWS c) = true := by
  obtain ⟨hsch, hne, hall, hlc, hlead, hws⟩ := h
  have hdata : (hrefOf u).data =
      u.scheme.data ++ ("://".data ++ (u.host.data ++ u.rest.data)) := by
    simp [hrefOf, strData_append]
  rw [hdata, List.all_append, List.all_append, List.all_append]
  simp only [Bool.and_eq_true]
  refine ⟨?_, ?_, ?_, hws⟩
  · rcases hsch with hsc | hsc <;> rw [hsc] <;> decide
  · decide
  · rw [List.all_eq_true] at hall ⊢
    intro a ha
    simpa using validHostChar_not_ws a (hall a ha)

/-! ## URL Normalizer -/

/-- The scheme-prefixing step of `normalizeUrl`: prepend `https://`
unless the string already starts with an http(s) scheme. -/
def withHttpScheme (s : String) : String :=
  if hasHttpScheme s then s else "https://" ++ s

/-- Model of `normalizeUrl`: trim, prefix `https://` when the
`/^https?:\/\//i` test fails, and parse; return the parse's `href`
serialization, and on parse failure return the original argument `url`
(the `catch` block returns `url`, not the trimmed `normalized`). -/
def normalizeUrl (url : String) : String :=
  match parseURL (withHttpScheme (jsTrim url)) with
  | some u => hrefOf u
  | none => url

/-- C4 counterexample: on the input `" http://"` (note the leading
space), the trimmed scheme-prefixed form `"http://"` fails to parse
(empty host), and `normalizeUrl` returns the untrimmed original
`" http://"`, not the trimmed string `"http://"` the claim predicts. -/
theorem claim_C4_counterexample :
    normalizeUrl " http://" = " http://" ∧
    jsTrim " http://" = "http://" ∧
    normalizeUrl " http://" ≠ jsTrim " http://" :=
  ⟨by decide, by decide, by decide⟩

/-- C4 (amended): for every input string that cannot be parsed as an
absolute URL even after whitespace trimming and `https://`
scheme-prefixing, the URL normalizer returns the original input string
unchanged — the original argument, not its trimmed form — and it never
throws. -/
theorem claim_C4 (url : String)
    (h : parseURL (withHttpScheme (jsTrim url)) = none) :
    normalizeUrl url = url := by
  unfold normalizeUrl
  rw [h]

/-- Witness for C4 at the concrete unparseable input `" http://"`. -/
theorem claim_C4_witness :
    parseURL (withHttpScheme (jsTrim " http://")) = none ∧
    normalizeUrl " http://" = " http://" :=
  ⟨by decide, claim_C4 " http://" (by decide)⟩

/-- C10: the URL normalizer is idempotent on every input whose trimmed,
scheme-prefixed form parses as an absolute URL: applying `normalizeUrl`
to its own output returns that output unchanged. -/
theorem claim_C10 (url : String) (u : URLRec)
    (h : parseURL (withHttpScheme (jsTrim url)) = some u) :
    normalizeUrl (normalizeUrl url) = normalizeUrl url := by
  have hwf := parseURL_wf _ _ h
  have h1 : normalizeUrl url = hrefOf u := by
    unfold normalizeUrl
    rw [h]
  have htrim : jsTrim (hrefOf u) = hrefOf u := by
    unfold jsTrim
    rw [jsTrimList_of_no_ws _ (hrefOf_no_ws u hwf)]
  have hscheme : hasHttpScheme (hrefOf u) = true := by
    unfold hasHttpScheme
    rw [schemeSplit_hrefOf u hwf]
    rfl
  have h2 : withHttpScheme (jsTrim (hrefOf u)) = hrefOf u := by
    rw [htrim]
    unfold withHttpScheme
    rw [hscheme]
    simp
  rw [h1]
  unfold normalizeUrl
  rw [h2, parseURL_hrefOf u hwf]

/-- Witness for C10 at the concrete input `" Example.com "`. -/
theorem claim_C10_witness :
    parseURL (withHttpScheme (jsTrim " Example.com ")) =
      some ⟨"https", "example.com", "/"⟩ ∧
    normalizeUrl (normalizeUrl " Example.com ") = normalizeUrl " Example.com " :=
  ⟨by decide, claim_C10 " Example.com " ⟨"https", "example.com", "/"⟩ (by decide)⟩

/-! ## Filename Synthesizer

The filename generation block of `generateScreenshots`
(template defaulting, placeholder substitution, sanitization and
extension enforcement). -/

/-- The fields substituted into a filename template, as the
orchestrator computes them for one captured image. -/
structure NameFields where
  domain : String
  path : String
  date : String
  time : String
  viewport : String
  width : String
  height : String
  index : String
deriving DecidableEq, Repr

/-- The placeholder substitution chain: each recognized placeholder is
replaced literally, case-sensitively and globally, in source order
(`{domain}`, `{path}`, `{date}`, `{time}`, `{viewport}`, `{width}`,
`{height}`, `{index}`). -/
def renderRaw (template : String) (f : NameFields) : String :=
  let s1 := jsReplaceAll template "{domain}" f.domain
  let s2 := jsReplaceAll s1 "{path}" f.path
  let s3 := jsReplaceAll s2 "{date}" f.date
  let s4 := jsReplaceAll s3 "{time}" f.time
  let s5 := jsReplaceAll s4 "{viewport}" f.viewport
  let s6 := jsReplaceAll s5 "{width}" f.width
  let s7 := jsReplaceAll s6 "{height}" f.height
  jsReplaceAll s7 "{index}" f.index

/-- The sanitize character class `[a-zA-Z0-9-_. \[\]()]`. -/
def allowedNameChar (c : Char) : Bool :=
  ('a' ≤ c && c ≤ 'z') || ('A' ≤ c && c ≤ 'Z') || ('0' ≤ c && c ≤ '9') ||
  c = '-' || c = '_' || c = '.' || c = ' ' ||
  c = '[' || c = ']' || c = '(' || c = ')'

/-- The sanitizing replacement: every character outside the class
becomes `'_'`. -/
def sanitizeName (s : String) : String :=
  ⟨s.data.map fun c => if allowedNameChar c then c else '_'⟩

/-- The extension step: append `.jpg` unless the name already ends in
`.jpg` or `.png` case-insensitively. -/
def ensureExt (s : String) : String :=
  if !strEnds ".jpg" (lcStr s) && !strEnds ".png" (lcStr s) then s ++ ".jpg" else s

/-- The effective template: a missing or blank configured template
falls back to the default `{domain}_{date}_{viewport}`. -/
def effectiveTemplate (t : String) : String :=
  if t ≠ "" ∧ jsTrim t ≠ "" then t else "{domain}_{date}_{viewport}"

/-- The whole filename synthesis for one captured image. -/
def renderFilename (template : String) (f : NameFields) : String :=
  ensureExt (sanitizeName (renderRaw template f))

/-- Decision procedure for a full match of the spec's filename regular
expression `[A-Za-z0-9\-_. \[\]()]+\.(jpg|png)`: at least one character
of the class, followed by a literal lowercase `.jpg` or `.png`. -/
def matchesSpecRegex (s : String) : Bool :=
  (strEnds ".jpg" s || strEnds ".png" s) &&
  s.data.length ≥ 5 &&
  (s.data.take (s.data.length - 4)).all allowedNameChar

example : matchesSpecRegex "example.com_mobile_3.jpg" = true := by decide
example : matchesSpecRegex ".jpg" = false := by decide
example : matchesSpecRegex "a.JPG" = false := by decide

theorem sanitizeName_all (s : String) :
    (sanitizeName s).data.all allowedNameChar = true := by
  unfold sanitizeName
  simp only [List.all_map]
  rw [List.all_eq_true]
  intro c _
  by_cases h : allowedNameChar c
  · simp [h]
  · simp only [Function.comp_apply]
    rw [if_neg h]
    decide

theorem lcList_append (l1 l2 : List Char) :
    lcList (l1 ++ l2) = lcList l1 ++ lcList l2 := by
  simp [lcList]

theorem strEnds_append_jpg (s : String) :
    strEnds ".jpg" (lcStr (s ++ ".jpg")) = true := by
  unfold strEnds lcStr trailsWith
  rw [strData_append]
  have : lcList (s.data ++ ".jpg".data) = lcList s.data ++ ".jpg".data := by
    rw [lcList_append]; rfl
  rw [this]
  simp only [List.reverse_append]
  exact leadsWith_append _ _

/-- C5 counterexample: the template `"{path}"` on a root page (whose
path field renders empty) yields the bare name `".jpg"`, which does not
match `[A-Za-z0-9\-_. \[\]()]+\.(jpg|png)` (the stem is empty); and a
template already ending in an uppercase `.JPG` is kept verbatim, which
also fails the (lowercase-extension) expression. -/
theorem claim_C5_counterexample :
    renderFilename (effectiveTemplate "{path}")
      ⟨"example.com", "", "2024-05-01", "10-30", "desktop", "1440", "900", "1"⟩ = ".jpg" ∧
    matchesSpecRegex ".jpg" = false ∧
    renderFilename (effectiveTemplate "a.JPG")
      ⟨"example.com", "", "2024-05-01", "10-30", "desktop", "1440", "900", "1"⟩ = "a.JPG" ∧
    matchesSpecRegex "a.JPG" = false :=
  ⟨by decide, by decide, by decide, by decide⟩

/-- C5 (amended): the synthesizer is deterministic (a pure function of
template and fields), every character of its output lies in the class
`[A-Za-z0-9\-_. \[\]()]`, and the output always ends in `.jpg` or
`.png` case-insensitively ( `.jpg` is appended unless the name already
ends in `.jpg` or `.png` case-insensitively). -/
theorem claim_C5 (t : String) (f : NameFields) :
    (renderFilename (effectiveTemplate t) f).data.all allowedNameChar = true ∧
    (strEnds ".jpg" (lcStr (renderFilename (effectiveTemplate t) f)) ||
     strEnds ".png" (lcStr (renderFilename (effectiveTemplate t) f))) = true := by
  have hall := sanitizeName_all (renderRaw (effectiveTemplate t) f)
  unfold renderFilename ensureExt
  by_cases hend :
      (!strEnds ".jpg" (lcStr (sanitizeName (renderRaw (effectiveTemplate t) f))) &&
       !strEnds ".png" (lcStr (sanitizeName (renderRaw (effectiveTemplate t) f)))) = true
  · rw [if_pos hend]
    constructor
    · rw [strData_append, List.all_append, hall]
      decide
    · rw [strEnds_append_jpg]
      rfl
  · rw [if_neg hend]
    refine ⟨hall, ?_⟩
    cases ha : strEnds ".jpg" (lcStr (sanitizeName (renderRaw (effectiveTemplate t) f))) <;>
      cases hb : strEnds ".png" (lcStr (sanitizeName (renderRaw (effectiveTemplate t) f))) <;>
      simp_all

/-- The `{domain}` field as the orchestrator computes it:
`urlObj.hostname.replace('www.', '')`, a first-occurrence string
replacement. -/
def cleanHostnameOf (host : String) : String := jsReplaceFirst host "www." ""

/-- What the claim says `{domain}` is: the hostname with a leading
`www.` stripped and the rest of the hostname unchanged. -/
def leadingWwwStripped (host : String) : String :=
  if strLeads "www." host then ⟨host.data.drop 4⟩ else host

/-- C6 counterexample: on the hostname `"x.www.com"` (no leading
`www.`), the code removes the first interior occurrence of `"www."`
and produces `"x.com"`, while the claim's leading-only stripping leaves
`"x.www.com"` unchanged. -/
theorem claim_C6_counterexample :
    cleanHostnameOf "x.www.com" = "x.com" ∧
    leadingWwwStripped "x.www.com" = "x.www.com" ∧
    cleanHostnameOf "x.www.com" ≠ leadingWwwStripped "x.www.com" :=
  ⟨by decide, by decide, by decide⟩

/-- C6 (amended): placeholders are replaced literally, case-sensitively
and at every occurrence, and `{domain}` is the hostname with the FIRST
occurrence of `"www."` removed — which is the leading `www.` whenever
the hostname starts with it, so a leading `www.` is stripped with the
rest unchanged; the claim's concrete example renders as stated, and a
repeated placeholder is substituted at both occurrences. -/
theorem claim_C6 :
    (∀ s : String, cleanHostnameOf ("www." ++ s) = s) ∧
    renderFilename (effectiveTemplate "{domain}_{viewport}_{index}")
      ⟨cleanHostnameOf "www.example.com", "", "2024-05-01", "10-30", "mobile", "393", "852", "3"⟩ =
      "example.com_mobile_3.jpg" ∧
    renderFilename (effectiveTemplate "{viewport}{viewport}")
      ⟨"example.com", "", "2024-05-01", "10-30", "mobile", "393", "852", "3"⟩ =
      "mobilemobile.jpg" := by
  refine ⟨?_, by decide, by decide⟩
  intro s
  have hd : ("www." ++ s).data = 'w' :: 'w' :: 'w' :: '.' :: s.data := by
    rw [strData_append]
    rfl
  refine strExt ?_
  show replaceFirstAux 'w' ['w', 'w', '.'] [] ("www." ++ s).data = s.data
  rw [hd]
  rfl

/-! ## Provider Fallback Capturer

The provider roster, the viewport-aware strategy selection, the
per-provider fetch-and-validate step and the fallback loop of
`captureRealScreenshotWithFallback` / `fetchImageAsBase64`. -/

/-- The two viewport tags. -/
inductive ViewportType where
  | desktop
  | mobile
deriving DecidableEq, Repr

/-- The string form of a viewport tag. -/
def vtStr : ViewportType → String
  | ViewportType.desktop => "desktop"
  | ViewportType.mobile => "mobile"

/-- The arguments of one capture call. -/
structure CapParams where
  url : String
  width : Nat
  height : Nat
  vtype : ViewportType
  fullPage : Bool
deriving DecidableEq, Repr

/-- One hex digit (uppercase). -/
def hexDigit (n : Nat) : Char :=
  if n = 0 then '0' else if n = 1 then '1' else if n = 2 then '2'
  else if n = 3 then '3' else if n = 4 then '4' else if n = 5 then '5'
  else if n = 6 then '6' else if n = 7 then '7' else if n = 8 then '8'
  else if n = 9 then '9' else if n = 10 then 'A' else if n = 11 then 'B'
  else if n = 12 then 'C' else if n = 13 then 'D' else if n = 14 then 'E'
  else 'F'

/-- A `%XX` escape for one code unit (the model works at codepoint
level and is exact on the ASCII range the pipeline uses). -/
def percentHex (n : Nat) : List Char :=
  ['%', hexDigit ((n % 256) / 16), hexDigit (n % 16)]

/-- Characters `encodeURIComponent` leaves unescaped. -/
def uriUnescaped (c : Char) : Bool :=
  c.isAlphanum || c = '-' || c = '_' || c = '.' || c = '!' || c = '~' ||
  c = '*' || c = '\'' || c = '(' || c = ')'

/-- Model of `encodeURIComponent`. -/
def encodeURIComponent (s : String) : String :=
  ⟨(s.data.map fun c => if uriUnescaped c then [c] else percentHex c.toNat).flatten⟩

/-- Characters `URLSearchParams` serialization leaves unescaped. -/
def formUnescaped (c : Char) : Bool :=
  c.isAlphanum || c = '*' || c = '-' || c = '.' || c = '_'

/-- Model of `application/x-www-form-urlencoded` escaping of one
component (space becomes `+`). -/
def formEncode (s : String) : String :=
  ⟨(s.data.map fun c =>
      if c = ' ' then ['+']
      else if formUnescaped c then [c]
      else percentHex c.toNat).flatten⟩

/-- Model of `new URLSearchParams(params).toString()` over an ordered
key-value list. -/
def urlSearchParams (ps : List (String × String)) : String :=
  String.intercalate "&" (ps.map fun kv => formEncode kv.1 ++ "=" ++ formEncode kv.2)

/-- The proxy routing endpoint (`PROXY_BASE`). -/
def PROXY_BASE : String := "https://corsproxy.io/?"

/-- A capture provider as the roster describes it: its name, the
request URL built for the current parameters, and whether the fetch
must be routed through the proxy. -/
structure ProviderSpec where
  name : String
  requestUrl : String
  useProxy : Bool
deriving DecidableEq, Repr

/-- The `microlink` provider (Provider A): query-parameter encoded
request with mobile emulation and device-scale flags, full-page flag
when requested; fetched directly (no proxy). -/
def microlinkProvider (p : CapParams) : ProviderSpec :=
  { name := "microlink"
    requestUrl := "https://api.microlink.io/?" ++ urlSearchParams
      ([("url", p.url), ("screenshot", "true"), ("meta", "false"),
        ("embed", "screenshot.url"),
        ("viewport.width", toString p.width),
        ("viewport.height", toString p.height),
        ("viewport.isMobile", if p.vtype = ViewportType.mobile then "true" else "false"),
        ("viewport.deviceScaleFactor", if p.vtype = ViewportType.mobile then "2" else "1"),
        ("waitFor", "3s")] ++
       (if p.fullPage then [("screenshot.fullPage", "true")] else []))
    useProxy := false }

/-- The `thum.io` provider (Provider B): width-driven renderer;
requires the proxy. -/
def thumProvider (p : CapParams) : ProviderSpec :=
  { name := "thum.io"
    requestUrl := "https://image.thum.io/get/width/" ++ toString p.width ++
      (if p.fullPage then "/fullpage" else "/crop/" ++ toString p.height) ++
      "/noanimate/" ++ p.url
    useProxy := true }

/-- The `mshots` provider (Provider C): cached thumbnail renderer with
a random cache-buster (modelled as the `cacheBuster` argument) and a
4000px height cap in full-page mode; requires the proxy. -/
def mshotsProvider (cacheBuster : String) (p : CapParams) : ProviderSpec :=
  { name := "mshots"
    requestUrl := "https://s0.wp.com/mshots/v1/" ++ encodeURIComponent p.url ++
      "?w=" ++ toString p.width ++
      "&h=" ++ toString (if p.fullPage then 4000 else p.height) ++
      "&v=" ++ cacheBuster
    useProxy := true }

/-- The strategy selection: a mobile viewport uses
`[microlink, thum.io]`, a full-page (desktop) request uses
`[microlink, thum.io]`, and an ordinary desktop viewport uses
`[mshots, microlink, thum.io]`. -/
def strategyFor (cacheBuster : String) (p : CapParams) : List ProviderSpec :=
  if p.vtype = ViewportType.mobile then [microlinkProvider p, thumProvider p]
  else if p.fullPage then [microlinkProvider p, thumProvider p]
  else [mshotsProvider cacheBuster p, microlinkProvider p, thumProvider p]

/-- An HTTP response as the capturer observes it: the `ok` flag, the
numeric status, the body blob's byte size and declared MIME type, and
the body's base64 payload as the FileReader would produce it. -/
structure FetchResponse where
  ok : Bool
  status : Nat
  size : Nat
  mime : String
  b64 : String
deriving DecidableEq, Repr

/-- The network environment: maps a request URL to its response, or
`none` for a rejected `fetch` (network error). -/
abbrev Network := String → Option FetchResponse

/-- Model of `fetchImageAsBase64`: perform the fetch, require a
successful status (`response.ok`), then require a blob of at least 100
bytes whose declared type mentions `image`; return the FileReader's
data-URL serialization of the blob. -/
def fetchImageAsBase64 (net : Network) (url : String) : Except String String :=
  match net url with
  | none => Except.error "network error"
  | some r =>
    if !r.ok then Except.error ("Status " ++ toString r.status)
    else if r.size < 100 || !strOccurs "image" r.mime then
      Except.error "Invalid image data received"
    else Except.ok ("data:" ++ r.mime ++ ";base64," ++ r.b64)

/-- The URL actually fetched for a provider, routed through the proxy
when the provider requires it. -/
def urlToFetch (pr : ProviderSpec) : String :=
  if pr.useProxy then PROXY_BASE ++ encodeURIComponent pr.requestUrl
  else pr.requestUrl

/-- One provider attempt: build the request URL, apply proxy routing,
fetch and validate. -/
def tryProvider (net : Network) (pr : ProviderSpec) : Except String String :=
  fetchImageAsBase64 net (urlToFetch pr)

/-- The fallback loop: attempt the strategy's providers in order,
return the first success; when an attempt fails record its error and
continue; when the roster is exhausted throw the last recorded error,
or the generic message when none was recorded.  The fixed 500 ms
backoff between attempts is timing only and is not modelled. -/
def attemptProviders (net : Network) : List ProviderSpec → Option String → Except String String
  | [], lastErr => Except.error (lastErr.getD "All screenshot providers failed")
  | pr :: rest, _lastErr =>
    match tryProvider net pr with
    | Except.ok d => Except.ok d
    | Except.error e => attemptProviders net rest (some e)

/-- The names of the providers actually attempted (fetched), in
order. -/
def attemptTrace (net : Network) : List ProviderSpec → List String
  | [] => []
  | pr :: rest =>
    match tryProvider net pr with
    | Except.ok _ => [pr.name]
    | Except.error _ => pr.name :: attemptTrace net rest

/-- Model of `captureRealScreenshotWithFallback`: run the fallback
loop over the selected strategy with no error recorded yet. -/
def captureWithFallback (net : Network) (cacheBuster : String) (p : CapParams) :
    Except String String :=
  attemptProviders net (strategyFor cacheBuster p) none

/-- Whether a provider attempt validates. -/
def attemptOk (net : Network) (pr : ProviderSpec) : Bool :=
  match tryProvider net pr with
  | Except.ok _ => true
  | Except.error _ => false

/-- The error message of a failed attempt, when it fails. -/
def errOf (net : Network) (pr : ProviderSpec) : Option String :=
  match tryProvider net pr with
  | Except.ok _ => none
  | Except.error e => some e

/-- The outcome the claim describes: the first validating provider's
image, else the last observed error, else (an empty roster) the generic
message. -/
def attemptProvidersSpec (net : Network) (strat : List ProviderSpec) :
    Except String String :=
  match strat.find? (attemptOk net) with
  | some pr => tryProvider net pr
  | none =>
    match (strat.filterMap (errOf net)).getLast? with
    | some e => Except.error e
    | none => Except.error "All screenshot providers failed"

/-- The attempted roster the claim describes: the strategy's provider
names up to and including the first success (all of them when none
succeeds). -/
def attemptTraceSpec (net : Network) (strat : List ProviderSpec) : List String :=
  (strat.map ProviderSpec.name).take (strat.findIdx (attemptOk net) + 1)

theorem attemptProviders_eq_spec (net : Network) (strat : List ProviderSpec) :
    ∀ le : Option String,
      attemptProviders net strat le =
        (match strat.find? (attemptOk net) with
        | some pr => tryProvider net pr
        | none =>
          match (strat.filterMap (errOf net)).getLast? with
          | some e => Except.error e
          | none => Except.error (le.getD "All screenshot providers failed")) := by
  induction strat with
  | nil =>
    intro le
    simp [attemptProviders]
  | cons pr rest ih =>
    intro le
    cases htry : tryProvider net pr with
    | ok d =>
      have hok : attemptOk net pr = true := by unfold attemptOk; rw [htry]
      simp [attemptProviders, htry, List.find?, hok]
    | error e =>
      have hok : attemptOk net pr = false := by unfold attemptOk; rw [htry]
      have herr : errOf net pr = some e := by unfold errOf; rw [htry]
      simp only [attemptProviders, htry, ih (some e), List.find?_cons, hok,
        List.filterMap_cons, herr]
      cases hfind : rest.find? (attemptOk net) with
      | some pr2 => simp
      | none =>
        simp only []
        cases hlast : (rest.filterMap (errOf net)).getLast? with
        | some e2 =>
          have : (e :: rest.filterMap (errOf net)).getLast? = some e2 := by
            cases hfm : rest.filterMap (errOf net) with
            | nil => rw [hfm] at hlast; exact absurd hlast (by simp)
            | cons x xs =>
              rw [hfm] at hlast
              rw [List.getLast?_cons_cons]
              exact hlast
          simp [this]
        | none =>
          have hfm : rest.filterMap (errOf net) = [] := by
            cases hfm : rest.filterMap (errOf net) with
            | nil => rfl
            | cons x xs =>
              rw [hfm] at hlast
              exact absurd hlast (by simp [List.getLast?_cons])
          simp [hfm]

theorem attemptTrace_eq_spec (net : Network) (strat : List ProviderSpec) :
    attemptTrace net strat = attemptTraceSpec net strat := by
  induction strat with
  | nil => rfl
  | cons pr rest ih =>
    unfold attemptTraceSpec at ih ⊢
    cases htry : tryProvider net pr with
    | ok d =>
      have hok : attemptOk net pr = true := by unfold attemptOk; rw [htry]
      simp [attemptTrace, htry, List.findIdx_cons, hok]
    | error e =>
      have hok : attemptOk net pr = false := by unfold attemptOk; rw [htry]
      simp only [attemptTrace, htry, List.findIdx_cons, hok, cond_false,
        List.map_cons, List.take_succ_cons]
      rw [ih]

theorem attemptOk_validation (net : Network) (pr : ProviderSpec) (r : FetchResponse)
    (hnet : net (urlToFetch pr) = some r) :
    attemptOk net pr = (r.ok && !(r.size < 100 || !strOccurs "image" r.mime)) := by
  unfold attemptOk tryProvider fetchImageAsBase64
  rw [hnet]
  cases hro : r.ok <;>
    cases h2 : (decide (r.size < 100) || !strOccurs "image" r.mime) <;>
    simp [hro, h2]

/-- C2: the ordered provider attempt sequence is a function of the
request shape alone: a mobile viewport yields
`[microlink, thum.io]` (never `mshots`), a full-page desktop request
yields `[microlink, thum.io]`, and an ordinary desktop viewport
request yields `[mshots, microlink, thum.io]`. -/
theorem claim_C2 (cb url : String) (w h : Nat) (fp : Bool) :
    ((strategyFor cb ⟨url, w, h, ViewportType.mobile, fp⟩).map ProviderSpec.name
        = ["microlink", "thum.io"] ∧
      "mshots" ∉ (strategyFor cb ⟨url, w, h, ViewportType.mobile, fp⟩).map ProviderSpec.name) ∧
    (strategyFor cb ⟨url, w, h, ViewportType.desktop, true⟩).map ProviderSpec.name
        = ["microlink", "thum.io"] ∧
    (strategyFor cb ⟨url, w, h, ViewportType.desktop, false⟩).map ProviderSpec.name
        = ["mshots", "microlink", "thum.io"] := by
  refine ⟨⟨?_, ?_⟩, ?_, ?_⟩ <;>
    simp [strategyFor, microlinkProvider, thumProvider, mshotsProvider]

/-- C3: for every network environment and capture parameters, the
fallback loop fetches providers of the selected strategy strictly in
order and each at most once (the attempted roster is the duplicate-free
prefix of the strategy roster up to and including the first success),
returns the first response that passes validation — successful HTTP
status, body of at least 100 bytes, content type mentioning `image` —
and, when every provider fails, throws the last observed error (the
generic `All screenshot providers failed` arises only for an empty
roster). -/
theorem claim_C3 (net : Network) (cb : String) (p : CapParams) :
    captureWithFallback net cb p = attemptProvidersSpec net (strategyFor cb p) ∧
    attemptTrace net (strategyFor cb p) = attemptTraceSpec net (strategyFor cb p) ∧
    (attemptTrace net (strategyFor cb p)).Nodup ∧
    (∀ pr : ProviderSpec, ∀ r : FetchResponse, net (urlToFetch pr) = some r →
      (attemptOk net pr = true ↔
        r.ok = true ∧ 100 ≤ r.size ∧ strOccurs "image" r.mime = true)) := by
  refine ⟨?_, attemptTrace_eq_spec net _, ?_, ?_⟩
  · unfold captureWithFallback attemptProvidersSpec
    rw [attemptProviders_eq_spec net (strategyFor cb p) none]
    rfl
  · have hnames : ((strategyFor cb p).map ProviderSpec.name).Nodup := by
      rcases p with ⟨url, w, h, vt, fp⟩
      cases vt <;> cases fp <;>
        simp [strategyFor, microlinkProvider, thumProvider, mshotsProvider]
    rw [attemptTrace_eq_spec]
    unfold attemptTraceSpec
    exact List.Nodup.sublist (List.take_sublist _ _) hnames
  · intro pr r hnet
    rw [attemptOk_validation net pr r hnet]
    cases hro : r.ok <;> cases hsz : decide (r.size < 100) <;>
      cases him : strOccurs "image" r.mime <;>
      simp_all [Nat.not_lt]

/-- A network in which every fetch returns a valid image response. -/
def netAllOk : Network := fun _ => some ⟨true, 200, 150, "image/jpeg", "QUJD"⟩

/-- A concrete ordinary-desktop capture request. -/
def pW : CapParams := ⟨"https://example.com/", 1440, 900, ViewportType.desktop, false⟩

/-- Witness for C3 at a concrete network and request, discharging the
validation conjunct's hypothesis at a concrete response. -/
theorem claim_C3_witness :
    captureWithFallback netAllOk "cb" pW = attemptProvidersSpec netAllOk (strategyFor "cb" pW) ∧
    (attemptOk netAllOk (microlinkProvider pW) = true ↔
      (true = true ∧ 100 ≤ 150 ∧ strOccurs "image" "image/jpeg" = true)) :=
  ⟨(claim_C3 netAllOk "cb" pW).1,
   (claim_C3 netAllOk "cb" pW).2.2.2 (microlinkProvider pW)
     ⟨true, 200, 150, "image/jpeg", "QUJD"⟩ rfl⟩

/-! ## Link Crawler

Breadth-first, same-host, depth-bounded link discovery
(`crawlForLinks`), with the visited set keyed by trailing-slash-stripped
URLs and a per-node cap of 4 newly enqueued children. -/

/-- One queue entry of the BFS: a URL and its discovery level
(root = 1). -/
structure QItem where
  url : String
  level : Nat
deriving DecidableEq, Repr

/-- Strip one trailing slash, as `url.replace(/\/$/, '')`. -/
def stripTrailingSlash (s : String) : String :=
  if s.data.getLast? = some '/' then ⟨s.data.dropLast⟩ else s

/-- The base directory of a path: everything up to and including the
last `/`. -/
def dirOf (s : String) : String :=
  ⟨(s.data.reverse.dropWhile fun c => !(c = '/')).reverse⟩

/-- Resolution of an `href` against a base URL record, modelling
`new URL(href, base)`: an absolute http(s) href stands on its own; a
protocol-relative `//…` href adopts the base's scheme; a root-relative
`/…` href replaces the base's path-query-fragment; any other href is
appended to the base's directory.  Hrefs containing whitespace fail to
resolve in the model (the real parser would percent-encode them). -/
def resolveRel (href : String) (base : URLRec) : Option URLRec :=
  match parseURL href with
  | some u => some u
  | none =>
    if !href.data.all (fun c => !isJsWS c) then none
    else if leadsWith ['/', '/'] href.data then parseURL (base.scheme ++ ":" ++ href)
    else if leadsWith ['/'] href.data then some { base with rest := href }
    else some { base with rest := dirOf base.rest ++ href }

/-- Model of `new URL(href, base)` with a raw base URL string (the base
is parsed first; an unparseable base makes the resolution throw). -/
def resolveAgainst (href base : String) : Option URLRec :=
  match parseURL base with
  | none => none
  | some b => resolveRel href b

/-- Whether an `href` attribute value is skipped outright: empty
(falsy), fragment, `mailto:`, `tel:` or `javascript:` pseudo-links. -/
def skipHref (href : String) : Bool :=
  href = "" || strLeads "#" href || strLeads "mailto:" href ||
  strLeads "tel:" href || strLeads "javascript:" href

/-- The enqueue pass over one fetched page's anchors: skip pseudo
links, resolve each href against the current page, keep links whose
hostname equals the base domain exactly and whose trailing-slash-
stripped form is unvisited, and stop adding once the per-node cap of 4
(`maxLinksPerLevel`) is reached; children are enqueued one level
deeper. -/
def collectChildren (baseDomain curUrl : String) (curLevel : Nat)
    (visited : List String) : List String → Nat → List QItem
  | [], _ => []
  | href :: hs, found =>
    if skipHref href then collectChildren baseDomain curUrl curLevel visited hs found
    else
      match resolveAgainst href curUrl with
      | none => collectChildren baseDomain curUrl curLevel visited hs found
      | some resolved =>
        if resolved.host = baseDomain then
          if visited.contains (stripTrailingSlash (hrefOf resolved)) = false ∧ found < 4 then
            ⟨hrefOf resolved, curLevel + 1⟩ ::
              collectChildren baseDomain curUrl curLevel visited hs (found + 1)
          else collectChildren baseDomain curUrl curLevel visited hs found
        else collectChildren baseDomain curUrl curLevel visited hs found

theorem collectChildren_length (baseDomain curUrl : String) (curLevel : Nat)
    (visited : List String) :
    ∀ (hs : List String) (found : Nat),
      (collectChildren baseDomain curUrl curLevel visited hs found).length ≤ 4 - found := by
  intro hs
  induction hs with
  | nil => intro found; simp [collectChildren]
  | cons href rest ih =>
    intro found
    unfold collectChildren
    split_ifs with h1
    · exact ih found
    · cases hres : resolveAgainst href curUrl with
      | none => exact ih found
      | some resolved =>
        simp only []
        split_ifs with h2 h3
        · have := ih (found + 1)
          simp only [List.length_cons]
          omega
        · exact ih found
        · exact ih found

theorem collectChildren_level (baseDomain curUrl : String) (curLevel : Nat)
    (visited : List String) :
    ∀ (hs : List String) (found : Nat),
      ∀ i ∈ collectChildren baseDomain curUrl curLevel visited hs found,
        i.level = curLevel + 1 := by
  intro hs
  induction hs with
  | nil => intro found i hi; simp [collectChildren] at hi
  | cons href rest ih =>
    intro found i hi
    unfold collectChildren at hi
    split_ifs at hi with h1
    · exact ih found i hi
    · cases hres : resolveAgainst href curUrl with
      | none => rw [hres] at hi; exact ih found i hi
      | some resolved =>
        rw [hres] at hi
        simp only [] at hi
        split_ifs at hi with h2 h3
        · rcases List.mem_cons.mp hi with rfl | hi2
          · rfl
          · exact ih (found + 1) i hi2
        · exact ih found i hi
        · exact ih found i hi

theorem dirOf_leads (s : String) (h : leadsWith ['/'] s.data = true) :
    leadsWith ['/'] (dirOf s).data = true := by
  obtain ⟨t, ht⟩ := (leadsWith_iff_append _ _).mp h
  unfold dirOf
  have hsuff : s.data.reverse.dropWhile (fun c => !(c = '/')) <:+ s.data.reverse :=
    List.dropWhile_suffix _
  have hne : s.data.reverse.dropWhile (fun c => !(c = '/')) ≠ [] := by
    intro hnil
    have hmem : '/' ∈ s.data.reverse := by rw [ht]; simp
    have hall := List.dropWhile_eq_nil_iff.mp hnil
    have := hall '/' hmem
    simp at this
  obtain ⟨pre, hpre⟩ := hsuff
  have hrecon : (s.data.reverse.dropWhile (fun c => !(c = '/'))).reverse ++ pre.reverse
      = s.data := by
    rw [← List.reverse_append, hpre, List.reverse_reverse]
  cases hlr : (s.data.reverse.dropWhile (fun c => !(c = '/'))).reverse with
  | nil =>
    exfalso
    apply hne
    have := congrArg List.reverse hlr
    rwa [List.reverse_reverse] at this
  | cons c cs =>
    rw [hlr] at hrecon
    rw [ht] at hrecon
    have hc : c = '/' := by
      have := congrArg (List.head? ·) hrecon
      simpa using this
    simp [hlr, leadsWith, hc]

theorem resolveRel_wf (href : String) (b : URLRec) (hb : WFURL b) (u : URLRec)
    (h : resolveRel href b = some u) : WFURL u := by
  unfold resolveRel at h
  cases hp : parseURL href with
  | some v =>
    rw [hp] at h
    injection h with h2
    exact h2 ▸ parseURL_wf href v hp
  | none =>
    rw [hp] at h
    split_ifs at h with h1 h2 h3
    · exact parseURL_wf _ u h
    · injection h with h2
      subst h2
      obtain ⟨hsch, hne, hall, hlc, -, -⟩ := hb
      have hws : href.data.all (fun c => !isJsWS c) = true := by
        cases hv : href.data.all (fun c => !isJsWS c)
        · rw [hv] at h1; exact absurd rfl h1
        · rfl
      exact ⟨hsch, hne, hall, hlc, h3, hws⟩
    · injection h with h2
      subst h2
      obtain ⟨hsch, hne, hall, hlc, hlead, hwsr⟩ := hb
      have hws : href.data.all (fun c => !isJsWS c) = true := by
        cases hv : href.data.all (fun c => !isJsWS c)
        · rw [hv] at h1; exact absurd rfl h1
        · rfl
      refine ⟨hsch, hne, hall, hlc, ?_, ?_⟩
      · have hdl := dirOf_leads b.rest hlead
        rw [strData_append]
        obtain ⟨t2, ht2⟩ := (leadsWith_iff_append _ _).mp hdl
        rw [ht2]
        simp [leadsWith]
      · rw [strData_append, List.all_append]
        refine (Bool.and_eq_true _ _).mpr ⟨?_, hws⟩
        unfold dirOf
        rw [List.all_eq_true] at hwsr ⊢
        intro a ha
        refine hwsr a ?_
        have hsub : (b.rest.data.reverse.dropWhile fun c => !(c = '/')) <:+
            b.rest.data.reverse := List.dropWhile_suffix _
        have := hsub.subset (by simpa using ha)
        simpa using this

theorem resolveAgainst_wf (href base : String) (u : URLRec)
    (h : resolveAgainst href base = some u) : WFURL u := by
  unfold resolveAgainst at h
  cases hp : parseURL base with
  | none => rw [hp] at h; exact absurd h (by simp)
  | some b =>
    rw [hp] at h
    exact resolveRel_wf href b (parseURL_wf base b hp) u h

theorem urlHostname_hrefOf (u : URLRec) (h : WFURL u) :
    urlHostname (hrefOf u) = some u.host := by
  unfold urlHostname
  rw [parseURL_hrefOf u h]
  rfl

theorem collectChildren_host (baseDomain curUrl : String) (curLevel : Nat)
    (visited : List String) :
    ∀ (hs : List String) (found : Nat),
      ∀ i ∈ collectChildren baseDomain curUrl curLevel visited hs found,
        urlHostname i.url = some baseDomain := by
  intro hs
  induction hs with
  | nil => intro found i hi; simp [collectChildren] at hi
  | cons href rest ih =>
    intro found i hi
    unfold collectChildren at hi
    split_ifs at hi with h1
    · exact ih found i hi
    · cases hres : resolveAgainst href curUrl with
      | none => rw [hres] at hi; exact ih found i hi
      | some resolved =>
        rw [hres] at hi
        simp only [] at hi
        split_ifs at hi with h2 h3
        · rcases List.mem_cons.mp hi with rfl | hi2
          · have hwf := resolveAgainst_wf href curUrl resolved hres
            simpa [h2] using urlHostname_hrefOf resolved hwf
          · exact ih (found + 1) i hi2
        · exact ih found i hi
        · exact ih found i hi

/-- Weight of one queue entry in the termination measure: entries at
deeper levels weigh exponentially less, so that replacing one entry by
at most four entries one level deeper decreases the total. -/
def levelWeight (depth level : Nat) : Nat := 5 ^ (depth + 1 - level)

/-- The termination measure of the BFS queue. -/
def queueMeasure (depth : Nat) (q : List QItem) : Nat :=
  (q.map fun i => levelWeight depth i.level).sum

theorem levelWeight_pos (depth lvl : Nat) : 0 < levelWeight depth lvl :=
  Nat.pos_pow_of_pos _ (by norm_num)

theorem queueMeasure_cons (depth : Nat) (i : QItem) (q : List QItem) :
    queueMeasure depth (i :: q) = levelWeight depth i.level + queueMeasure depth q := by
  simp [queueMeasure]

theorem queueMeasure_append (depth : Nat) (q1 q2 : List QItem) :
    queueMeasure depth (q1 ++ q2) = queueMeasure depth q1 + queueMeasure depth q2 := by
  simp [queueMeasure]

theorem queueMeasure_bound (depth lvl : Nat) (ch : List QItem)
    (hlv : ∀ i ∈ ch, i.level = lvl) :
    queueMeasure depth ch ≤ ch.length * levelWeight depth lvl := by
  induction ch with
  | nil => simp [queueMeasure]
  | cons i rest ih =>
    rw [queueMeasure_cons]
    have hi : i.level = lvl := hlv i (by simp)
    have hrest := ih fun j hj => hlv j (by simp [hj])
    rw [hi]
    simp only [List.length_cons, Nat.succ_mul]
    omega

theorem children_measure_lt (depth lvl : Nat) (hlt : lvl < depth) (ch : List QItem)
    (hlen : ch.length ≤ 4) (hlv : ∀ i ∈ ch, i.level = lvl + 1) :
    queueMeasure depth ch < levelWeight depth lvl := by
  have hb := queueMeasure_bound depth (lvl + 1) ch hlv
  have hk : depth + 1 - (lvl + 1) = depth - lvl := by omega
  have hk2 : depth + 1 - lvl = (depth - lvl) + 1 := by omega
  have hpow : levelWeight depth (lvl + 1) = 5 ^ (depth - lvl) := by
    unfold levelWeight; rw [hk]
  have hpow2 : levelWeight depth lvl = 5 ^ (depth - lvl) * 5 := by
    unfold levelWeight; rw [hk2, pow_succ]
  have hpos : 0 < 5 ^ (depth - lvl) := Nat.pos_pow_of_pos _ (by norm_num)
  calc queueMeasure depth ch ≤ ch.length * levelWeight depth (lvl + 1) := hb
    _ ≤ 4 * 5 ^ (depth - lvl) := by rw [hpow]; exact Nat.mul_le_mul_right _ hlen
    _ < 5 ^ (depth - lvl) * 5 := by omega
    _ = levelWeight depth lvl := hpow2.symm

/-- The BFS loop of `crawlForLinks`: dequeue; skip entries whose
trailing-slash-stripped form was already visited; otherwise mark
visited and append the (unstripped) URL to the result; when the level
is below the depth bound, fetch the page's hrefs and enqueue the
collected children (a failed fetch keeps the entry but adds no
children). -/
def crawlLoop (fetch : String → Option (List String)) (depth : Nat) (baseDomain : String) :
    List QItem → List String → List String → List String
  | [], _, result => result
  | cur :: rest, visited, result =>
    if visited.contains (stripTrailingSlash cur.url) then
      crawlLoop fetch depth baseDomain rest visited result
    else if hlt : cur.level < depth then
      match fetch cur.url with
      | none =>
        crawlLoop fetch depth baseDomain rest
          (stripTrailingSlash cur.url :: visited) (result ++ [cur.url])
      | some hrefs =>
        crawlLoop fetch depth baseDomain
          (rest ++ collectChildren baseDomain cur.url cur.level
            (stripTrailingSlash cur.url :: visited) hrefs 0)
          (stripTrailingSlash cur.url :: visited) (result ++ [cur.url])
    else
      crawlLoop fetch depth baseDomain rest
        (stripTrailingSlash cur.url :: visited) (result ++ [cur.url])
termination_by q _ _ => queueMeasure depth q
decreasing_by
  · rw [queueMeasure_cons]
    have := levelWeight_pos depth cur.level
    omega
  · rw [queueMeasure_cons]
    have := levelWeight_pos depth cur.level
    omega
  · rw [queueMeasure_cons, queueMeasure_append]
    have h4 := collectChildren_length baseDomain cur.url cur.level
      (stripTrailingSlash cur.url :: visited) hrefs 0
    have hlv := collectChildren_level baseDomain cur.url cur.level
      (stripTrailingSlash cur.url :: visited) hrefs 0
    have hcm := children_measure_lt depth cur.level hlt _ (by omega) hlv
    omega
  · rw [queueMeasure_cons]
    have := levelWeight_pos depth cur.level
    omega

/-- Model of `crawlForLinks`: compute the base domain from the root URL
(an unparseable root throws, modelled as `none`), then run the BFS from
the root at level 1.  The `fetch` oracle stands for the proxied
HTML-fetch-and-anchor-extraction step: it yields the page's href
attribute values, or `none` for a failed fetch; the progress callback
has no functional effect and is not modelled. -/
def crawlForLinks (fetch : String → Option (List String)) (baseUrl : String)
    (depth : Nat) : Option (List String) :=
  match parseURL baseUrl with
  | none => none
  | some b => some (crawlLoop fetch depth b.host [⟨baseUrl, 1⟩] [] [])

theorem crawlLoop_result_grows (fetch : String → Option (List String)) (depth : Nat)
    (baseDomain : String) :
    ∀ (q : List QItem) (visited result : List String),
      ∃ t, crawlLoop fetch depth baseDomain q visited result = result ++ t := by
  intro q visited result
  induction q, visited, result using crawlLoop.induct fetch depth baseDomain with
  | case1 visited result => exact ⟨[], by simp [crawlLoop]⟩
  | case2 cur rest visited result hvis ih =>
    obtain ⟨t, ht⟩ := ih
    refine ⟨t, ?_⟩
    rw [crawlLoop, if_pos hvis]
    exact ht
  | case3 cur rest visited result hvis hlt hfetch ih =>
    obtain ⟨t, ht⟩ := ih
    refine ⟨[cur.url] ++ t, ?_⟩
    rw [crawlLoop, if_neg hvis]
    simp only [hlt, dif_pos, hfetch]
    rw [ht, List.append_assoc]
  | case4 cur rest visited result hvis hlt hrefs hfetch ih =>
    obtain ⟨t, ht⟩ := ih
    refine ⟨[cur.url] ++ t, ?_⟩
    rw [crawlLoop, if_neg hvis]
    simp only [hlt, dif_pos, hfetch]
    rw [ht, List.append_assoc]
  | case5 cur rest visited result hvis hlt ih =>
    obtain ⟨t, ht⟩ := ih
    refine ⟨[cur.url] ++ t, ?_⟩
    rw [crawlLoop, if_neg hvis, dif_neg hlt]
    rw [ht, List.append_assoc]

theorem strContains_iff {l : List String} {a : String} :
    l.contains a = true ↔ a ∈ l := List.elem_iff

/-- One dequeue-and-append step preserves the dedup invariant: the
result stays duplicate-free modulo trailing-slash-stripping, and every
result entry's stripped form is in the (extended) visited set. -/
theorem crawlStep_inv (cur : QItem) (visited result : List String)
    (hvis : ¬visited.contains (stripTrailingSlash cur.url) = true)
    (h1 : (result.map stripTrailingSlash).Nodup)
    (h2 : ∀ r ∈ result, stripTrailingSlash r ∈ visited) :
    ((result ++ [cur.url]).map stripTrailingSlash).Nodup ∧
    (∀ r ∈ result ++ [cur.url],
      stripTrailingSlash r ∈ stripTrailingSlash cur.url :: visited) := by
  constructor
  · rw [List.map_append]
    rw [List.nodup_append]
    refine ⟨h1, by simp, ?_⟩
    intro a ha hb
    simp only [List.map_cons, List.map_nil, List.mem_singleton] at hb
    subst hb
    obtain ⟨r, hr, hsr⟩ := List.mem_map.mp ha
    exact hvis (strContains_iff.mpr (hsr ▸ h2 r hr))
  · intro r hr
    rcases List.mem_append.mp hr with h | h
    · exact List.mem_cons_of_mem _ (h2 r h)
    · simp only [List.mem_singleton] at h
      subst h
      exact List.mem_cons_self _ _

theorem crawlLoop_nodup (fetch : String → Option (List String)) (depth : Nat)
    (baseDomain : String) :
    ∀ (q : List QItem) (visited result : List String),
      (result.map stripTrailingSlash).Nodup →
      (∀ r ∈ result, stripTrailingSlash r ∈ visited) →
      ((crawlLoop fetch depth baseDomain q visited result).map stripTrailingSlash).Nodup := by
  intro q visited result
  induction q, visited, result using crawlLoop.induct fetch depth baseDomain with
  | case1 visited result =>
    intro h1 _
    rw [crawlLoop]
    exact h1
  | case2 cur rest visited result hvis ih =>
    intro h1 h2
    rw [crawlLoop, if_pos hvis]
    exact ih h1 h2
  | case3 cur rest visited result hvis hlt hfetch ih =>
    intro h1 h2
    rw [crawlLoop, if_neg hvis]
    simp only [hlt, dif_pos, hfetch]
    obtain ⟨hA, hB⟩ := crawlStep_inv cur visited result hvis h1 h2
    exact ih hA hB
  | case4 cur rest visited result hvis hlt hrefs hfetch ih =>
    intro h1 h2
    rw [crawlLoop, if_neg hvis]
    simp only [hlt, dif_pos, hfetch]
    obtain ⟨hA, hB⟩ := crawlStep_inv cur visited result hvis h1 h2
    exact ih hA hB
  | case5 cur rest visited result hvis hlt ih =>
    intro h1 h2
    rw [crawlLoop, if_neg hvis, dif_neg hlt]
    obtain ⟨hA, hB⟩ := crawlStep_inv cur visited result hvis h1 h2
    exact ih hA hB

theorem crawlLoop_hosts (fetch : String → Option (List String)) (depth : Nat)
    (baseDomain : String) :
    ∀ (q : List QItem) (visited result : List String),
      (∀ i ∈ q, urlHostname i.url = some baseDomain) →
      (∀ r ∈ result, urlHostname r = some baseDomain) →
      ∀ r ∈ crawlLoop fetch depth baseDomain q visited result,
        urlHostname r = some baseDomain := by
  intro q visited result
  induction q, visited, result using crawlLoop.induct fetch depth baseDomain with
  | case1 visited result =>
    intro _ h2 r hr
    rw [crawlLoop] at hr
    exact h2 r hr
  | case2 cur rest visited result hvis ih =>
    intro h1 h2 r hr
    rw [crawlLoop, if_pos hvis] at hr
    exact ih (fun i hi => h1 i (List.mem_cons_of_mem _ hi)) h2 r hr
  | case3 cur rest visited result hvis hlt hfetch ih =>
    intro h1 h2 r hr
    rw [crawlLoop, if_neg hvis] at hr
    simp only [hlt, dif_pos, hfetch] at hr
    refine ih (fun i hi => h1 i (List.mem_cons_of_mem _ hi)) ?_ r hr
    intro r2 hr2
    rcases List.mem_append.mp hr2 with h | h
    · exact h2 r2 h
    · simp only [List.mem_singleton] at h
      subst h
      exact h1 cur (List.mem_cons_self _ _)
  | case4 cur rest visited result hvis hlt hrefs hfetch ih =>
    intro h1 h2 r hr
    rw [crawlLoop, if_neg hvis] at hr
    simp only [hlt, dif_pos, hfetch] at hr
    refine ih ?_ ?_ r hr
    · intro i hi
      rcases List.mem_append.mp hi with h | h
      · exact h1 i (List.mem_cons_of_mem _ h)
      · exact collectChildren_host baseDomain cur.url cur.level _ hrefs 0 i h
    · intro r2 hr2
      rcases List.mem_append.mp hr2 with h | h
      · exact h2 r2 h
      · simp only [List.mem_singleton] at h
        subst h
        exact h1 cur (List.mem_cons_self _ _)
  | case5 cur rest visited result hvis hlt ih =>
    intro h1 h2 r hr
    rw [crawlLoop, if_neg hvis, dif_neg hlt] at hr
    refine ih (fun i hi => h1 i (List.mem_cons_of_mem _ hi)) ?_ r hr
    intro r2 hr2
    rcases List.mem_append.mp hr2 with h | h
    · exact h2 r2 h
    · simp only [List.mem_singleton] at h
      subst h
      exact h1 cur (List.mem_cons_self _ _)

theorem crawlLoop_seed_ne_nil (fetch : String → Option (List String)) (depth : Nat)
    (baseDomain : String) (cur : QItem) (rest : List QItem) :
    crawlLoop fetch depth baseDomain (cur :: rest) [] [] ≠ [] := by
  rw [crawlLoop]
  have hvis : ¬([] : List String).contains (stripTrailingSlash cur.url) = true := by
    simp [List.contains]
  rw [if_neg hvis]
  by_cases hlt : cur.level < depth
  · rw [dif_pos hlt]
    cases hf : fetch cur.url with
    | none =>
      obtain ⟨t, ht⟩ := crawlLoop_result_grows fetch depth baseDomain rest
        (stripTrailingSlash cur.url :: []) ([] ++ [cur.url])
      simp only [List.nil_append] at ht
      simp [ht]
    | some hrefs =>
      obtain ⟨t, ht⟩ := crawlLoop_result_grows fetch depth baseDomain
        (rest ++ collectChildren baseDomain cur.url cur.level
          (stripTrailingSlash cur.url :: []) hrefs 0)
        (stripTrailingSlash cur.url :: []) ([] ++ [cur.url])
      simp only [List.nil_append] at ht
      simp [ht]
  · rw [dif_neg hlt]
    obtain ⟨t, ht⟩ := crawlLoop_result_grows fetch depth baseDomain rest
      (stripTrailingSlash cur.url :: []) ([] ++ [cur.url])
    simp only [List.nil_append] at ht
    simp [ht]

/-- C7: whenever the crawler returns (its root URL parses), its output
list is non-empty — the root is always included even when every page
fetch fails — and every entry's hostname equals the root URL's
hostname exactly. -/
theorem claim_C7 (fetch : String → Option (List String)) (baseUrl : String)
    (depth : Nat) (res : List String)
    (h : crawlForLinks fetch baseUrl depth = some res) :
    res ≠ [] ∧ ∀ e ∈ res, urlHostname e = urlHostname baseUrl := by
  unfold crawlForLinks at h
  cases hp : parseURL baseUrl with
  | none => rw [hp] at h; exact absurd h (by simp)
  | some b =>
    rw [hp] at h
    injection h with h2
    subst h2
    have hbase : urlHostname baseUrl = some b.host := by
      unfold urlHostname
      rw [hp]
      rfl
    constructor
    · exact crawlLoop_seed_ne_nil fetch depth b.host ⟨baseUrl, 1⟩ []
    · intro e he
      have hseed : ∀ i ∈ [(⟨baseUrl, 1⟩ : QItem)], urlHostname i.url = some b.host := by
        intro i hi
        simp only [List.mem_singleton] at hi
        subst hi
        exact hbase
      have := crawlLoop_hosts fetch depth b.host [⟨baseUrl, 1⟩] [] []
        hseed (by simp) e he
      rw [this, hbase]

/-- C8: no two entries of a successful crawl are equal after stripping
one trailing slash — the result is duplicate-free modulo trailing-slash
normalization, because a URL is marked visited by its stripped form
before being appended and already-visited URLs are skipped at
dequeue. -/
theorem claim_C8 (fetch : String → Option (List String)) (baseUrl : String)
    (depth : Nat) (res : List String)
    (h : crawlForLinks fetch baseUrl depth = some res) :
    (res.map stripTrailingSlash).Nodup := by
  unfold crawlForLinks at h
  cases hp : parseURL baseUrl with
  | none => rw [hp] at h; exact absurd h (by simp)
  | some b =>
    rw [hp] at h
    injection h with h2
    subst h2
    exact crawlLoop_nodup fetch depth b.host [⟨baseUrl, 1⟩] [] [] (by simp) (by simp)

theorem crawl_eval_example :
    crawlForLinks (fun _ => none) "https://example.com" 1 =
      some ["https://example.com"] := by
  unfold crawlForLinks
  have hp : parseURL "https://example.com" = some ⟨"https", "example.com", "/"⟩ := by
    decide
  rw [hp]
  show some (crawlLoop (fun _ => none) 1 "example.com"
      [⟨"https://example.com", 1⟩] [] []) = some ["https://example.com"]
  have hstrip : stripTrailingSlash "https://example.com" = "https://example.com" := by
    decide
  rw [crawlLoop]
  rw [hstrip]
  have hvis : ¬([] : List String).contains "https://example.com" = true := by
    simp [List.contains]
  rw [if_neg hvis, dif_neg (by omega : ¬(1 : Nat) < 1)]
  simp [crawlLoop]

/-- Witness for C7 at a concrete one-page crawl whose fetch always
fails. -/
theorem claim_C7_witness :
    ["https://example.com"] ≠ [] ∧
    ∀ e ∈ ["https://example.com"],
      urlHostname e = urlHostname "https://example.com" :=
  claim_C7 (fun _ => none) "https://example.com" 1 _ crawl_eval_example

/-- Witness for C8 at the same concrete crawl. -/
theorem claim_C8_witness :
    ((["https://example.com"] : List String).map stripTrailingSlash).Nodup :=
  claim_C8 (fun _ => none) "https://example.com" 1 _ crawl_eval_example

/-! ## Capture Orchestrator

`generateScreenshots`: normalize the root, crawl (best effort), build
the viewport list, and produce one record per (page, viewport) pair in
page-major order, substituting an error placeholder for failed
captures. -/

/-- A configured resolution. -/
structure Resolution where
  width : Nat
  height : Nat
deriving DecidableEq, Repr

/-- The capture configuration (`CaptureConfig`): viewport enable
flags, optional per-viewport resolutions, full-page flag, auto-export
flag, crawl depth and filename template. -/
structure CaptureConfig where
  desktop : Bool
  mobile : Bool
  desktopRes : Option Resolution
  mobileRes : Option Resolution
  fullPage : Bool
  autoDownload : Bool
  depth : Nat
  filenameTemplate : String
deriving DecidableEq, Repr

/-- One enabled viewport with its resolved dimensions. -/
structure VPRec where
  vtype : ViewportType
  width : Nat
  height : Nat
deriving DecidableEq, Repr

/-- The viewport list built from configuration: desktop first when
enabled (default 1440×900), then mobile (default 393×852); a missing
or zero configured dimension falls back to the default (the JS
`config.desktopRes?.width || 1440` chain). -/
def viewportsFor (config : CaptureConfig) : List VPRec :=
  (if config.desktop then
    [⟨ViewportType.desktop,
      (match config.desktopRes with
       | none => 1440
       | some r => if r.width = 0 then 1440 else r.width),
      (match config.desktopRes with
       | none => 900
       | some r => if r.height = 0 then 900 else r.height)⟩]
  else []) ++
  (if config.mobile then
    [⟨ViewportType.mobile,
      (match config.mobileRes with
       | none => 393
       | some r => if r.width = 0 then 393 else r.width),
      (match config.mobileRes with
       | none => 852
       | some r => if r.height = 0 then 852 else r.height)⟩]
  else [])

/-- The orchestrator's effect environment: the capture network, the
crawler's document fetch, the image-dimension prober, the placeholder
renderer, the random cache-buster, and the formatted date and time of
the run. -/
structure OrchEnv where
  net : Network
  fetchHtml : String → Option (List String)
  dims : String → Nat × Nat
  placeholder : Nat → Nat → String → String
  cacheBuster : String
  dateStr : String
  timeStr : String

/-- A produced record (`GeneratedImage`; the random `id` and the
later-added `analysis` fields are outside the model). -/
structure GeneratedImage where
  url : String
  dataUrl : String
  viewport : ViewportType
  width : Nat
  height : Nat
  filename : String
deriving DecidableEq, Repr

/-- The `{domain}` field for a page: the hostname with the first
`www.` removed. -/
def cleanHostnameFor (urlObj : URLRec) : String := cleanHostnameOf urlObj.host

/-- The `{path}` field for a page: empty at the root, else the
pathname with `/` replaced by `-`. -/
def cleanPathFor (urlObj : URLRec) : String :=
  if pathnameOf urlObj = "/" then "" else jsReplaceAll (pathnameOf urlObj) "/" "-"

/-- The per-(page, viewport) step of the capture loop: a successful
capture with a non-empty data URL probes the image dimensions (zero
falls back to the requested viewport), renders the filename and yields
the record; a thrown capture error yields the placeholder record sized
to the requested viewport with the fixed `error_{domain}_{viewport}.jpg`
filename; a successful capture with an empty data URL yields nothing. -/
def processPair (env : OrchEnv) (config : CaptureConfig)
    (cleanHostname cleanPath url : String) (v : VPRec) (currentOp : Nat) :
    Option GeneratedImage :=
  match captureWithFallback env.net env.cacheBuster
      ⟨url, v.width, v.height, v.vtype, config.fullPage⟩ with
  | Except.ok dataUrl =>
    if dataUrl ≠ "" then
      some ⟨url, dataUrl, v.vtype,
        (if (env.dims dataUrl).1 = 0 then v.width else (env.dims dataUrl).1),
        (if (env.dims dataUrl).2 = 0 then v.height else (env.dims dataUrl).2),
        renderFilename (effectiveTemplate config.filenameTemplate)
          ⟨cleanHostname, cleanPath, env.dateStr, env.timeStr, vtStr v.vtype,
           toString (if (env.dims dataUrl).1 = 0 then v.width else (env.dims dataUrl).1),
           toString (if (env.dims dataUrl).2 = 0 then v.height else (env.dims dataUrl).2),
           toString currentOp⟩⟩
    else none
  | Except.error _ =>
    some ⟨url, env.placeholder v.width v.height url, v.vtype, v.width, v.height,
      "error_" ++ cleanHostname ++ "_" ++ vtStr v.vtype ++ ".jpg"⟩

/-- The inner viewport loop for one page (the operation counter is
incremented before each pair is processed). -/
def processViewports (env : OrchEnv) (config : CaptureConfig)
    (cleanHostname cleanPath url : String) :
    List VPRec → Nat → List GeneratedImage
  | [], _ => []
  | v :: vs, opBase =>
    (processPair env config cleanHostname cleanPath url v (opBase + 1)).toList ++
      processViewports env config cleanHostname cleanPath url vs (opBase + 1)

/-- The page loop: parse the page URL (an unparseable page URL throws
out of the whole orchestration, modelled as `none`), compute the
filename fields, and run the viewport loop in page-major order. -/
def processPages (env : OrchEnv) (config : CaptureConfig) (viewports : List VPRec) :
    List String → Nat → Option (List GeneratedImage)
  | [], _ => some []
  | url :: rest, opBase =>
    match parseURL url with
    | none => none
    | some urlObj =>
      match processPages env config viewports rest (opBase + viewports.length) with
      | none => none
      | some more =>
        some (processViewports env config (cleanHostnameFor urlObj)
          (cleanPathFor urlObj) url viewports opBase ++ more)

/-- The page list: crawl from the normalized root; when the crawl
throws or returns an empty list, fall back to the root alone. -/
def urlsToCapture (env : OrchEnv) (rootUrl : String) (config : CaptureConfig) :
    List String :=
  match crawlForLinks env.fetchHtml (normalizeUrl rootUrl) config.depth with
  | none => [normalizeUrl rootUrl]
  | some crawled => if crawled.length > 0 then crawled else [normalizeUrl rootUrl]

/-- Model of `generateScreenshots`.  The 1.5 s inter-capture
rate-limit delay and the progress callback have no effect on the data
flow and are not modelled. -/
def generateScreenshots (env : OrchEnv) (rootUrl : String) (config : CaptureConfig) :
    Option (List GeneratedImage) :=
  processPages env config (viewportsFor config) (urlsToCapture env rootUrl config) 0

theorem fetchImage_ok_ne_empty (net : Network) (url d : String)
    (h : fetchImageAsBase64 net url = Except.ok d) : d ≠ "" := by
  unfold fetchImageAsBase64 at h
  cases hn : net url with
  | none => rw [hn] at h; exact absurd h (by simp)
  | some r =>
    rw [hn] at h
    replace h : (if (!r.ok) = true then Except.error ("Status " ++ toString r.status)
        else if (decide (r.size < 100) || !strOccurs "image" r.mime) = true then
          Except.error "Invalid image data received"
        else Except.ok ("data:" ++ r.mime ++ ";base64," ++ r.b64)) = Except.ok d := h
    cases hro : r.ok <;> rw [hro] at h
    · simp at h
    · cases hv : (decide (r.size < 100) || !strOccurs "image" r.mime)
      · rw [hv] at h
        simp only [Bool.not_true, Bool.false_eq_true, if_false, Bool.not_false,
          if_true, Except.ok.injEq] at h
        subst h
        intro heq
        have hdata := congrArg String.data heq
        rw [strData_append, strData_append, strData_append] at hdata
        rcases List.append_eq_nil.mp hdata with ⟨h5, -⟩
        rcases List.append_eq_nil.mp h5 with ⟨h6, -⟩
        rcases List.append_eq_nil.mp h6 with ⟨h7, -⟩
        exact (by decide : ¬("data:".data = [])) h7
      · rw [hv] at h
        simp at h

theorem attemptProviders_ok_src (net : Network) (strat : List ProviderSpec) :
    ∀ (le : Option String) (d : String), attemptProviders net strat le = Except.ok d →
      ∃ url, fetchImageAsBase64 net url = Except.ok d := by
  induction strat with
  | nil =>
    intro le d h
    exact absurd h (by simp [attemptProviders])
  | cons pr rest ih =>
    intro le d h
    unfold attemptProviders at h
    cases htry : tryProvider net pr with
    | ok d2 =>
      rw [htry] at h
      injection h with h2
      subst h2
      exact ⟨urlToFetch pr, htry⟩
    | error e =>
      rw [htry] at h
      exact ih (some e) d h

theorem processPair_isSome (env : OrchEnv) (config : CaptureConfig)
    (ch cp url : String) (v : VPRec) (op : Nat) :
    (processPair env config ch cp url v op).isSome = true := by
  unfold processPair
  cases hc : captureWithFallback env.net env.cacheBuster
      ⟨url, v.width, v.height, v.vtype, config.fullPage⟩ with
  | error e => simp
  | ok d =>
    have hne : d ≠ "" := by
      obtain ⟨u2, hu⟩ := attemptProviders_ok_src env.net _ _ _ hc
      exact fetchImage_ok_ne_empty env.net u2 d hu
    simp [hne]

theorem processViewports_length (env : OrchEnv) (config : CaptureConfig)
    (ch cp url : String) :
    ∀ (vps : List VPRec) (opBase : Nat),
      (processViewports env config ch cp url vps opBase).length = vps.length := by
  intro vps
  induction vps with
  | nil => intro opBase; rfl
  | cons v vs ih =>
    intro opBase
    unfold processViewports
    rw [List.length_append, ih]
    have hs := processPair_isSome env config ch cp url v (opBase + 1)
    obtain ⟨img, himg⟩ := Option.isSome_iff_exists.mp hs
    rw [himg]
    simp [Nat.add_comm]

theorem processPages_length (env : OrchEnv) (config : CaptureConfig) (vps : List VPRec) :
    ∀ (pages : List String) (opBase : Nat) (imgs : List GeneratedImage),
      processPages env config vps pages opBase = some imgs →
      imgs.length = pages.length * vps.length := by
  intro pages
  induction pages with
  | nil =>
    intro opBase imgs h
    unfold processPages at h
    injection h with h2
    subst h2
    simp
  | cons url rest ih =>
    intro opBase imgs h
    unfold processPages at h
    cases hp : parseURL url with
    | none => rw [hp] at h; exact absurd h (by simp)
    | some urlObj =>
      rw [hp] at h
      cases hm : processPages env config vps rest (opBase + vps.length) with
      | none => rw [hm] at h; exact absurd h (by simp)
      | some more =>
        rw [hm] at h
        injection h with h2
        subst h2
        rw [List.length_append, processViewports_length, ih _ more hm]
        simp only [List.length_cons]
        ring

/-- C1: whenever the orchestrator returns a list, its length is
exactly the number of crawled pages times the number of enabled
viewports — every (page, viewport) pair contributes exactly one
record, successful or placeholder, with no silent drops (a successful
capture always yields a non-empty data URL). -/
theorem claim_C1 (env : OrchEnv) (rootUrl : String) (config : CaptureConfig)
    (imgs : List GeneratedImage)
    (h : generateScreenshots env rootUrl config = some imgs) :
    imgs.length =
      (urlsToCapture env rootUrl config).length * (viewportsFor config).length :=
  processPages_length env config (viewportsFor config)
    (urlsToCapture env rootUrl config) 0 imgs h

/-- C9: when the capture call throws for one (page, viewport) pair,
the orchestrator still appends exactly one record for the pair: the
placeholder, whose filename is exactly `error_` + the www-stripped
hostname + `_` + the viewport tag + `.jpg`, and whose recorded width
and height equal the requested viewport dimensions. -/
theorem claim_C9 (env : OrchEnv) (config : CaptureConfig) (urlObj : URLRec)
    (url : String) (v : VPRec) (op : Nat) (e : String)
    (hfail : captureWithFallback env.net env.cacheBuster
      ⟨url, v.width, v.height, v.vtype, config.fullPage⟩ = Except.error e) :
    processPair env config (cleanHostnameFor urlObj) (cleanPathFor urlObj) url v op =
      some ⟨url, env.placeholder v.width v.height url, v.vtype, v.width, v.height,
        "error_" ++ cleanHostnameOf urlObj.host ++ "_" ++ vtStr v.vtype ++ ".jpg"⟩ := by
  unfold processPair
  rw [hfail]
  rfl

/-- A concrete orchestrator environment in which every network fetch
fails (all captures fall through to the placeholder) and the crawler's
document fetch fails too. -/
def envW : OrchEnv :=
  { net := fun _ => none
    fetchHtml := fun _ => none
    dims := fun _ => (0, 0)
    placeholder := fun _ _ _ => "placeholder"
    cacheBuster := "cb"
    dateStr := "2024-05-01"
    timeStr := "10-30" }

/-- A concrete configuration: both viewports at default resolutions,
no full page, depth 1, default template. -/
def configW : CaptureConfig := ⟨true, true, none, none, false, false, 1, ""⟩

theorem crawl_eval_slash :
    crawlForLinks (fun _ => none) "https://example.com/" 1 =
      some ["https://example.com/"] := by
  unfold crawlForLinks
  have hp : parseURL "https://example.com/" = some ⟨"https", "example.com", "/"⟩ := by
    decide
  rw [hp]
  show some (crawlLoop (fun _ => none) 1 "example.com"
      [⟨"https://example.com/", 1⟩] [] []) = some ["https://example.com/"]
  have hstrip : stripTrailingSlash "https://example.com/" = "https://example.com" := by
    decide
  rw [crawlLoop]
  rw [hstrip]
  have hvis : ¬([] : List String).contains "https://example.com" = true := by
    simp [List.contains]
  rw [if_neg hvis, dif_neg (by omega : ¬(1 : Nat) < 1)]
  simp [crawlLoop]

theorem urlsToCapture_eval :
    urlsToCapture envW "https://example.com" configW = ["https://example.com/"] := by
  unfold urlsToCapture
  have hn : normalizeUrl "https://example.com" = "https://example.com/" := by decide
  have hf : envW.fetchHtml = (fun _ => none) := rfl
  have hd : configW.depth = 1 := rfl
  rw [hn, hf, hd, crawl_eval_slash]
  rfl

theorem gen_eval_example :
    generateScreenshots envW "https://example.com" configW =
      some [⟨"https://example.com/", "placeholder", ViewportType.desktop, 1440, 900,
              "error_example.com_desktop.jpg"⟩,
            ⟨"https://example.com/", "placeholder", ViewportType.mobile, 393, 852,
              "error_example.com_mobile.jpg"⟩] := by
  unfold generateScreenshots
  rw [urlsToCapture_eval]
  decide

/-- Witness for C1 at a concrete request in which every capture fails:
the produced list still has one record per (page, viewport) pair. -/
theorem claim_C1_witness :
    ([⟨"https://example.com/", "placeholder", ViewportType.desktop, 1440, 900,
        "error_example.com_desktop.jpg"⟩,
      ⟨"https://example.com/", "placeholder", ViewportType.mobile, 393, 852,
        "error_example.com_mobile.jpg"⟩] : List GeneratedImage).length =
      (urlsToCapture envW "https://example.com" configW).length *
        (viewportsFor configW).length :=
  claim_C1 envW "https://example.com" configW _ gen_eval_example

/-- Witness for C9 at a concrete failing pair. -/
theorem claim_C9_witness :
    captureWithFallback envW.net envW.cacheBuster
      ⟨"https://example.com/", 1440, 900, ViewportType.desktop, false⟩ =
        Except.error "network error" ∧
    processPair envW configW (cleanHostnameFor ⟨"https", "example.com", "/"⟩)
      (cleanPathFor ⟨"https", "example.com", "/"⟩) "https://example.com/"
      ⟨ViewportType.desktop, 1440, 900⟩ 1 =
      some ⟨"https://example.com/", "placeholder", ViewportType.desktop, 1440, 900,
        "error_example.com_desktop.jpg"⟩ :=
  ⟨rfl,
   claim_C9 envW configW ⟨"https", "example.com", "/"⟩ "https://example.com/"
     ⟨ViewportType.desktop, 1440, 900⟩ 1 "network error" rfl⟩
